import Mathlib

/-!
Verification development for the metadata caching-and-resolution kernel of the
jsDelivr API backend (`src/routes/lib/v1/PackageRequest.js`).

The JavaScript source is shallowly embedded: pure data transformations become
Lean functions over `List Char` / `String`, the semver dependency is embedded
following its documented precedence and range semantics on the fragment the
source exercises, and the shared promise cache (whose implementation lives in
`lib/promise-cache-shared`, outside the provided sources) is modelled from the
specification of `SharedCache`.
-/

deriving instance DecidableEq for Except

namespace JsDelivr

/-! ## Character-list utilities -/

/-- Split a list of characters at every occurrence of the separator. -/
def splitCh (sep : Char) : List Char → List (List Char)
  | [] => [[]]
  | c :: cs =>
    let r := splitCh sep cs
    if c = sep then [] :: r
    else
      match r with
      | [] => [[c]]
      | g :: gs => (c :: g) :: gs

/-- Break a list at the first occurrence of the separator; the second component
is `none` when the separator does not occur. -/
def breakAtFirst (sep : Char) : List Char → List Char × Option (List Char)
  | [] => ([], none)
  | c :: cs =>
    if c = sep then ([], some cs)
    else
      let r := breakAtFirst sep cs
      (c :: r.1, r.2)

/-- Every character is an ASCII decimal digit. -/
def allDigits (l : List Char) : Bool := l.all (·.isDigit)

/-- Read a decimal digit list as a natural number. -/
def charsToNat (l : List Char) : Nat := l.foldl (fun n c => n * 10 + (c.toNat - 48)) 0

/-! ## The semver dependency

`getResolvedVersion` relies on the `semver` npm package (`valid`, `prerelease`,
`rcompare`, `maxSatisfying`).  The following definitions embed that dependency
for the fragment the source uses: full `major.minor.patch` versions with
optional pre-release and build suffixes, and ranges built from the comparator
operators together with the caret and tilde sugar. -/

/-- A parsed semantic version; the build suffix is ignored for precedence. -/
structure SemVer where
  major : Nat
  minor : Nat
  patch : Nat
  pre : List (List Char)
  deriving DecidableEq

/-- A numeric version component: nonempty, digits only, no leading zero. -/
def validNumPart (l : List Char) : Bool :=
  !l.isEmpty && allDigits l && (l.length == 1 || !(l.headD ' ' == '0'))

/-- Characters allowed in pre-release and build identifiers. -/
def idChar (c : Char) : Bool := c.isDigit || c.isAlpha || c == '-'

/-- A valid pre-release identifier: nonempty, alphanumeric/hyphen, and when
numeric it must not carry a leading zero. -/
def validPreId (l : List Char) : Bool :=
  !l.isEmpty && l.all idChar && (if allDigits l then validNumPart l else true)

/-- Parse a semantic version from characters, tolerating one leading `v` the
way `semver.valid` does. -/
def parseSemVerL (input : List Char) : Option SemVer :=
  let l := match input with
    | 'v' :: rest => rest
    | other => other
  let afterBuild := breakAtFirst '+' l
  let buildOk := match afterBuild.2 with
    | none => true
    | some b => (splitCh '.' b).all (fun g => !g.isEmpty && g.all idChar)
  let afterPre := breakAtFirst '-' afterBuild.1
  let preIds := match afterPre.2 with
    | none => []
    | some p => splitCh '.' p
  let preOk := match afterPre.2 with
    | none => true
    | some _ => preIds.all validPreId
  match splitCh '.' afterPre.1 with
  | [ma, mi, pa] =>
    if validNumPart ma && validNumPart mi && validNumPart pa && preOk && buildOk then
      some { major := charsToNat ma, minor := charsToNat mi, patch := charsToNat pa, pre := preIds }
    else none
  | _ => none

/-- Parse a semantic version from a string. -/
def parseSemVer (s : String) : Option SemVer := parseSemVerL s.data

/-- Three-way comparison on naturals. -/
def cmpNat (a b : Nat) : Ordering :=
  if a < b then .lt else if b < a then .gt else .eq

/-- Lexicographic ASCII comparison of character lists. -/
def cmpCharL : List Char → List Char → Ordering
  | [], [] => .eq
  | [], _ :: _ => .lt
  | _ :: _, [] => .gt
  | a :: as, b :: bs => (cmpNat a.toNat b.toNat).then (cmpCharL as bs)

/-- Compare two pre-release identifiers: numeric identifiers compare
numerically and sort below alphanumeric ones. -/
def cmpPreId (a b : List Char) : Ordering :=
  match allDigits a, allDigits b with
  | true, true => cmpNat (charsToNat a) (charsToNat b)
  | true, false => .lt
  | false, true => .gt
  | false, false => cmpCharL a b

/-- Compare pre-release identifier sequences; a strict prefix sorts lower. -/
def cmpPreList : List (List Char) → List (List Char) → Ordering
  | [], [] => .eq
  | [], _ :: _ => .lt
  | _ :: _, [] => .gt
  | a :: as, b :: bs => (cmpPreId a b).then (cmpPreList as bs)

/-- Compare the pre-release fields of two versions: a release (empty field)
sorts above every pre-release of the same numeric triple. -/
def cmpRelease (a b : List (List Char)) : Ordering :=
  match a, b with
  | [], [] => .eq
  | [], _ :: _ => .gt
  | _ :: _, [] => .lt
  | _ :: _, _ :: _ => cmpPreList a b

/-- Semantic-version precedence. -/
def compareSemVer (x y : SemVer) : Ordering :=
  (cmpNat x.major y.major).then
    ((cmpNat x.minor y.minor).then
      ((cmpNat x.patch y.patch).then (cmpRelease x.pre y.pre)))

/-- Comparator operators of a semver range. -/
inductive RangeOp
  | rLt
  | rLe
  | rGt
  | rGe
  | rEq
  deriving DecidableEq

/-- A single comparator of a semver range. -/
structure Comparator where
  op : RangeOp
  ver : SemVer
  deriving DecidableEq

/-- A range: a disjunction (`||`) of comparator sets (space-conjunction). -/
abbrev Range := List (List Comparator)

/-- Does the version pass one comparator? -/
def compTest (v : SemVer) (c : Comparator) : Bool :=
  match c.op, compareSemVer v c.ver with
  | .rEq, .eq => true
  | .rEq, _ => false
  | .rLt, .lt => true
  | .rLt, _ => false
  | .rLe, .gt => false
  | .rLe, _ => true
  | .rGt, .gt => true
  | .rGt, _ => false
  | .rGe, .lt => false
  | .rGe, _ => true

/-- Same `major.minor.patch` triple. -/
def sameTriple (a b : SemVer) : Bool :=
  a.major == b.major && a.minor == b.minor && a.patch == b.patch

/-- Does the version satisfy a comparator set?  A pre-release version is only
admitted when some comparator of the set carries a pre-release tag on the same
numeric triple, per the semver range rules. -/
def compSetTest (v : SemVer) (cs : List Comparator) : Bool :=
  cs.all (compTest v) &&
    (v.pre.isEmpty || cs.any (fun c => !c.ver.pre.isEmpty && sameTriple v c.ver))

/-- Does the version satisfy the range? -/
def rangeTest (v : SemVer) (r : Range) : Bool := r.any (compSetTest v)

/-- Desugar a caret comparator. -/
def caretComps (v : SemVer) : List Comparator :=
  if v.major > 0 then [⟨.rGe, v⟩, ⟨.rLt, ⟨v.major + 1, 0, 0, []⟩⟩]
  else if v.minor > 0 then [⟨.rGe, v⟩, ⟨.rLt, ⟨0, v.minor + 1, 0, []⟩⟩]
  else [⟨.rGe, v⟩, ⟨.rLt, ⟨0, 0, v.patch + 1, []⟩⟩]

/-- Desugar a tilde comparator. -/
def tildeComps (v : SemVer) : List Comparator :=
  [⟨.rGe, v⟩, ⟨.rLt, ⟨v.major, v.minor + 1, 0, []⟩⟩]

/-- Parse a single comparator token into its comparator list. -/
def parseOneComp (tok : List Char) : Option (List Comparator) :=
  match tok with
  | [] => some []
  | ['*'] => some []
  | '^' :: rest => (parseSemVerL rest).map caretComps
  | '~' :: rest => (parseSemVerL rest).map tildeComps
  | '>' :: '=' :: rest => (parseSemVerL rest).map (fun v => [⟨.rGe, v⟩])
  | '<' :: '=' :: rest => (parseSemVerL rest).map (fun v => [⟨.rLe, v⟩])
  | '>' :: rest => (parseSemVerL rest).map (fun v => [⟨.rGt, v⟩])
  | '<' :: rest => (parseSemVerL rest).map (fun v => [⟨.rLt, v⟩])
  | '=' :: rest => (parseSemVerL rest).map (fun v => [⟨.rEq, v⟩])
  | _ => (parseSemVerL tok).map (fun v => [⟨.rEq, v⟩])

/-- Split a character list at every `||`. -/
def splitOr : List Char → List (List Char)
  | [] => [[]]
  | '|' :: '|' :: rest => [] :: splitOr rest
  | c :: cs =>
    match splitOr cs with
    | [] => [[c]]
    | g :: gs => (c :: g) :: gs

/-- Parse one space-separated comparator set. -/
def parseCompSet (l : List Char) : Option (List Comparator) :=
  let toks := (splitCh ' ' l).filter (fun t => !t.isEmpty)
  toks.foldl
    (fun acc tok =>
      match acc, parseOneComp tok with
      | some cs, some more => some (cs ++ more)
      | _, _ => none)
    (some [])

/-- Parse a range string; `none` when any alternative fails to parse. -/
def parseRange (s : String) : Option Range :=
  (splitOr s.data).foldr
    (fun alt acc =>
      match parseCompSet alt, acc with
      | some cs, some r => some (cs :: r)
      | _, _ => none)
    (some [])

/-- Keep whichever of the two candidates has strictly higher precedence,
keeping the incumbent on ties, as `semver.maxSatisfying` does. -/
def pickMax (best : Option (String × SemVer)) (v : String) (pv : SemVer) :
    Option (String × SemVer) :=
  match best with
  | none => some (v, pv)
  | some (b, pb) => if compareSemVer pb pv = .lt then some (v, pv) else some (b, pb)

/-- Embedding of `semver.maxSatisfying`: the highest version of the list
satisfying the range, or `none` when the range does not parse or nothing
satisfies it. -/
def maxSatisfying (versions : List String) (range : String) : Option String :=
  match parseRange range with
  | none => none
  | some r =>
    (versions.foldl
      (fun best v =>
        match parseSemVer v with
        | none => best
        | some pv => if rangeTest pv r then pickMax best v pv else best)
      none).map Prod.fst

/-! ## The metadata document and version resolution -/

/-- The metadata document produced by the fetchers: a tag-to-version mapping
and a version list. -/
structure MetadataDoc where
  tags : List (String × String)
  versions : List String
  deriving DecidableEq

/-- The candidate filter of `getResolvedVersion`:
`semver.valid(v) && !semver.prerelease(v)`. -/
def validRelease (v : String) : Bool :=
  match parseSemVer v with
  | some p => p.pre.isEmpty
  | none => false

/-- Stable insertion for the descending sort below. -/
def insertCmp (cmp : String → String → Ordering) (x : String) : List String → List String
  | [] => [x]
  | y :: ys => if cmp y x = .lt then y :: insertCmp cmp x ys else x :: y :: ys

/-- Stable sort by a comparator, as `Array.prototype.sort` with a comparator. -/
def sortByCmp (cmp : String → String → Ordering) : List String → List String
  | [] => []
  | x :: xs => insertCmp cmp x (sortByCmp cmp xs)

/-- Embedding of `semver.rcompare` as a comparator on version strings; the
source only applies it to lists of valid versions, so unparseable strings are
left in place. -/
def rcompareOrd (a b : String) : Ordering :=
  match parseSemVer a, parseSemVer b with
  | some x, some y => compareSemVer y x
  | _, _ => .eq

/-- Embedding of `PackageRequest.getResolvedVersion`, the pure resolution step
applied to a fetched metadata document and the requested specifier. -/
def getResolvedVersion (doc : MetadataDoc) (spec : String) : Option String :=
  let versions := sortByCmp rcompareOrd (doc.versions.filter validRelease)
  if doc.versions.contains spec then some spec
  else
    match doc.tags.lookup spec with
    | some t => some t
    | none =>
      if spec == "latest" || spec == "" then
        match versions.head? with
        | some v => if v == "" then none else some v
        | none => none
      else maxSatisfying versions spec

/-! ## GitHub tag normalization (`fetchGitHubMetadata`) -/

/-- Strip a single leading `v` from a tag name, as the loader's
`tag.name.charAt(0) === 'v'` / `substr(1)` step does. -/
def stripVL (l : List Char) : List Char :=
  match l with
  | 'v' :: rest => rest
  | other => other

/-- String form of `stripVL`. -/
def stripV (s : String) : String := ⟨stripVL s.data⟩

/-- Numeric key of one dotted component, embedding the `v-compare`
dependency's `parseInt`-style reading of a part's leading digits. -/
def partToNat (l : List Char) : Nat := charsToNat (l.takeWhile (·.isDigit))

/-- Dotted-numeric key of a tag name for the `v-compare` dependency. -/
def vCompareKey (s : String) : List Nat := (splitCh '.' s.data).map partToNat

/-- Compare the empty part list against a part list, missing parts being `0`. -/
def cmpZerosTo : List Nat → Ordering
  | [] => .eq
  | b :: bs => (cmpNat 0 b).then (cmpZerosTo bs)

/-- Compare numeric part lists, a missing part counting as `0`. -/
def cmpNatList : List Nat → List Nat → Ordering
  | [], l => cmpZerosTo l
  | a :: as, [] => (cmpNat a 0).then (cmpNatList as [])
  | a :: as, b :: bs => (cmpNat a b).then (cmpNatList as bs)

/-- Embedding of the `v-compare` dependency's reverse comparator
`vCompare.rCompare`, which tolerates non-semver tag names. -/
def vRCompareOrd (a b : String) : Ordering := cmpNatList (vCompareKey b) (vCompareKey a)

/-- Deduplication keeping first occurrences, as `_.uniq`. -/
def dedupAux (seen : List String) : List String → List String
  | [] => []
  | x :: xs => if seen.contains x then dedupAux seen xs else x :: dedupAux (x :: seen) xs

/-- Deduplication keeping first occurrences, as `_.uniq`. -/
def dedupFirst (l : List String) : List String := dedupAux [] l

/-- The versions list built by `fetchGitHubMetadata` from the raw tag names:
strip one leading `v`, drop names that became falsy (empty), sort with
`vCompare.rCompare`, then `_.uniq`. -/
def fetchGitHubVersions (names : List String) : List String :=
  dedupFirst (sortByCmp vRCompareOrd ((names.map stripV).filter (fun v => !(v == ""))))

/-- The metadata document returned by `fetchGitHubMetadata` on a successful
tag fetch: an always-empty tags mapping and the normalized versions. -/
def fetchGitHubMetadata (names : List String) : MetadataDoc :=
  { tags := [], versions := fetchGitHubVersions names }

/-- The claimed normalization read literally: strip, deduplicate, sort — with
no removal of names that became empty.  Kept for comparison with
`fetchGitHubVersions`. -/
def ghVersionsClaimed (names : List String) : List String :=
  sortByCmp vRCompareOrd (dedupFirst (names.map stripV))

/-! ## The shared promise cache

The cache implementation (`lib/promise-cache-shared`) is not part of the
provided sources; only its call sites are.  Modelled from the spec:
`SharedCache` of §4.1 — `get(key, loader, defaultMaxAge)` returns a live
settled entry without invoking the loader; otherwise it invokes the loader,
which may call a one-shot `override(value, maxAge)` to store a negative entry
with the given TTL (the default when omitted) regardless of the loader's own
outcome; a loader success without override is stored under the default TTL and
a loader failure without override stores nothing.  The model is sequential:
one `get` is one atomic step, and the single-flight/pending machinery is not
represented. -/

/-- A settled cache entry: kind, value and expiry instant. -/
structure CacheEntry (α : Type) where
  isFailure : Bool
  val : α
  expiresAt : Nat
  deriving DecidableEq

/-- Cache contents, keyed by strings; lookup takes the first binding. -/
abbrev CacheState (α : Type) := List (String × CacheEntry α)

/-- Modelled from the spec: an entry is visible only while `now < expiresAt`. -/
def lookupLive (st : CacheState α) (key : String) (now : Nat) : Option (CacheEntry α) :=
  match st.lookup key with
  | some e => if now < e.expiresAt then some e else none
  | none => none

/-- One completed run of a loader, as observable data: the optional one-shot
`override(value, maxAge)` call and the loader's own outcome. -/
structure LoaderRun (α : Type) where
  override : Option (α × Option Nat)
  outcome : Except α α

/-- Store a binding, shadowing any previous binding of the key. -/
def setEntry (st : CacheState α) (key : String) (e : CacheEntry α) : CacheState α :=
  (key, e) :: st

/-- Result of a `get`: the outcome handed to the caller, the new cache state,
and whether the loader was invoked. -/
structure GetResult (α : Type) where
  result : Except α α
  state : CacheState α
  invoked : Bool

/-- Modelled from the spec: `SharedCache.get` (§4.1). -/
def cacheGet (st : CacheState α) (now : Nat) (key : String) (run : LoaderRun α)
    (defaultMaxAge : Nat) : GetResult α :=
  match lookupLive st key now with
  | some e =>
    { result := if e.isFailure then .error e.val else .ok e.val
      state := st
      invoked := false }
  | none =>
    match run.override with
    | some (v, ttl) =>
      { result := run.outcome
        state := setEntry st key ⟨true, v, now + ttl.getD defaultMaxAge⟩
        invoked := true }
    | none =>
      match run.outcome with
      | .ok v =>
        { result := .ok v
          state := setEntry st key ⟨false, v, now + defaultMaxAge⟩
          invoked := true }
      | .error e =>
        { result := .error e
          state := st
          invoked := true }

/-! ## The GitHub loader's failure handling -/

/-- Values flowing through the GitHub metadata cache: a successful document,
the cached negative `{ response: { statusCode } }` object, or the augmented
error the loader rethrows. -/
inductive GhVal
  | doc (d : MetadataDoc)
  | negative (statusCode : Nat)
  | thrown (status : Nat) (block : Bool)
  deriving DecidableEq

/-- Outcome of the paginated GitHub tag fetch. -/
inductive GhFetchOutcome
  | ok (tagNames : List String)
  | err (status : Nat) (block : Bool)
  deriving DecidableEq

/-- The loader body of `fetchGitHubMetadata` as observable data: on success it
returns the normalized document; on failure it caches a negative result for
`maxAge * 2` when the status is 404, or 403 with the block flag, logs the rate
limit when the status is 403 without the block flag, and rethrows. -/
def ghLoader (o : GhFetchOutcome) (maxAge : Nat) : LoaderRun GhVal × Bool :=
  match o with
  | .ok names => ({ override := none, outcome := .ok (.doc (fetchGitHubMetadata names)) }, false)
  | .err status block =>
    let ov :=
      if status == 404 then some (GhVal.negative status, some (maxAge * 2))
      else if status == 403 && block then some (GhVal.negative status, some (maxAge * 2))
      else none
    ({ override := ov, outcome := .error (.thrown status block) }, status == 403 && !block)

/-- `fetchGitHubMetadata` through the shared cache: result, new state, loader
invocation flag, and whether the rate limit was logged. -/
def fetchGitHubCached (st : CacheState GhVal) (now : Nat) (user repo : String)
    (maxAge : Nat) (o : GhFetchOutcome) : GetResult GhVal × Bool :=
  let step := ghLoader o maxAge
  (cacheGet st now ("gh/" ++ user ++ "/" ++ repo) step.1 maxAge, step.2)

/-! ## The npm registry loader -/

/-- A parsed registry response body: the keys of its `versions` object when
present, and the `dist-tags` mapping. -/
structure NpmBody where
  versions : Option (List String)
  distTags : List (String × String)
  deriving DecidableEq

/-- Values flowing through the npm metadata cache. -/
inductive NpmVal
  | doc (d : MetadataDoc)
  | negative (statusCode : Nat)
  | httpError (status : Option Nat)
  | validationError (name : String)
  deriving DecidableEq

/-- Outcome of the registry fetch race: a response body (possibly absent), or
an error carrying an optional HTTP status. -/
inductive NpmFetchOutcome
  | ok (body : Option NpmBody)
  | err (status : Option Nat)
  deriving DecidableEq

/-- The loader body of `fetchNpmMetadata` as observable data: a 404 triggers
the one-shot `cache({ response: { statusCode } })` override (no explicit TTL)
before the error is rethrown; a response without a versions collection throws
the validation error; otherwise the document is built with the `dist-tags`
mapping verbatim and the version keys sorted with `semver.rcompare`. -/
def npmLoader (name : String) (o : NpmFetchOutcome) : LoaderRun NpmVal :=
  match o with
  | .err status =>
    { override := if status == some 404 then some (NpmVal.negative 404, none) else none
      outcome := .error (.httpError status) }
  | .ok none => { override := none, outcome := .error (.validationError name) }
  | .ok (some b) =>
    match b.versions with
    | none => { override := none, outcome := .error (.validationError name) }
    | some ks =>
      { override := none
        outcome := .ok (.doc { tags := b.distTags, versions := sortByCmp rcompareOrd ks }) }

/-- `fetchNpmMetadata` through the shared cache. -/
def fetchNpmCached (st : CacheState NpmVal) (now : Nat) (name : String)
    (maxAge : Nat) (o : NpmFetchOutcome) : GetResult NpmVal :=
  cacheGet st now ("npm/" ++ name) (npmLoader name o) maxAge

/-! ## The file-listing fetch (`fetchFiles`) -/

/-- Outcome of one `got(url, { json: true, timeout: 30000 })` attempt. -/
inductive FilesFetchOutcome
  | ok (deflt : Option String) (files : Option String)
  | httpErr (status : Nat) (body : String)
  | parseErr
  | timeoutErr
  | requestErr
  deriving DecidableEq

/-- Errors propagated by `fetchFiles`. -/
inductive FilesError
  | http (status : Nat) (body : String)
  | parse
  | timeout
  | request
  deriving DecidableEq

/-- Values resolved by `fetchFiles`: the picked `{default, files}` payload or
the structured `{status, message}` negative result built from a 403. -/
inductive FilesResult
  | payload (deflt : Option String) (files : Option String)
  | negative (status : Nat) (message : String)
  deriving DecidableEq

/-- The `promiseRetry` bound used by `fetchFiles`: `{ retries: 2 }`. -/
def fetchRetries : Nat := 2

/-- The per-attempt `got` timeout used by `fetchFiles`, in milliseconds. -/
def fetchTimeoutMs : Nat := 30000

/-- One step's decision: settle with a result, or signal a retry. -/
inductive AttemptStep
  | done (r : Except FilesError FilesResult)
  | retry
  deriving DecidableEq

/-- The `.then`/`.catch` classification of one attempt in `fetchFiles`: the
picked `{default, files}` payload on success; a 403 HTTP error becomes the
structured `{status, message}` value; a parse error calls `retry(error)`;
every other error is thrown. -/
def filesAttemptStep (o : FilesFetchOutcome) : AttemptStep :=
  match o with
  | .ok d f => .done (.ok (.payload d f))
  | .httpErr s b => if s == 403 then .done (.ok (.negative s b)) else .done (.error (.http s b))
  | .parseErr => .retry
  | .timeoutErr => .done (.error .timeout)
  | .requestErr => .done (.error .request)

/-- The `promiseRetry` loop of `fetchFiles`: a retry signal re-runs the next
attempt while retries remain; once they are exhausted the retried error (the
parse error) propagates. -/
def fetchFilesGo (attempt : Nat → FilesFetchOutcome) (i : Nat) :
    Nat → Except FilesError FilesResult
  | 0 =>
    match filesAttemptStep (attempt i) with
    | .done r => r
    | .retry => .error .parse
  | n + 1 =>
    match filesAttemptStep (attempt i) with
    | .done r => r
    | .retry => fetchFilesGo attempt (i + 1) n

/-- Embedding of `PackageRequest.fetchFiles` over the sequence of attempt
outcomes (attempt `i` is `attempt i`). -/
def fetchFiles (attempt : Nat → FilesFetchOutcome) : Except FilesError FilesResult :=
  fetchFilesGo attempt 0 fetchRetries

/-- The worked example document of the specification:
`versions = ["2.0.0","1.9.9","1.0.0-beta"]`, `tags = {"latest":"2.0.0"}`. -/
def exampleDoc : MetadataDoc :=
  { tags := [("latest", "2.0.0")], versions := ["2.0.0", "1.9.9", "1.0.0-beta"] }

/-- The sorted candidate list used by steps 3 and 4 of `getResolvedVersion`. -/
def resolutionCandidates (doc : MetadataDoc) : List String :=
  sortByCmp rcompareOrd (doc.versions.filter validRelease)

end JsDelivr

namespace JsDelivr

/-! ## Helper lemmas -/

theorem contains_true_iff {l : List String} {a : String} : l.contains a = true ↔ a ∈ l := by
  induction l with
  | nil => simp
  | cons b bs ih =>
    show List.elem a (b :: bs) = true ↔ a ∈ b :: bs
    rw [List.elem]
    cases hab : a == b
    · rw [show (List.elem a bs = true ↔ a ∈ bs) from ih]
      simp only [List.mem_cons]
      constructor
      · exact Or.inr
      · rintro (rfl | h)
        · simp at hab
        · exact h
    · have : a = b := by simpa using hab
      subst this
      simp

theorem lookup_mem {β : Type} {l : List (String × β)} {k : String} {v : β}
    (h : l.lookup k = some v) : (k, v) ∈ l := by
  induction l with
  | nil => simp [List.lookup] at h
  | cons p ps ih =>
    obtain ⟨k1, v1⟩ := p
    rw [List.lookup] at h
    cases hbeq : k == k1
    · rw [hbeq] at h
      exact List.mem_cons_of_mem _ (ih h)
    · rw [hbeq] at h
      have hk : k = k1 := by simpa using hbeq
      have hv : v1 = v := by simpa using h
      subst hk
      subst hv
      exact List.mem_cons_self _ _

theorem mem_insertCmp {cmp : String → String → Ordering} {x v : String} :
    ∀ {l : List String}, v ∈ insertCmp cmp x l ↔ v = x ∨ v ∈ l := by
  intro l
  induction l with
  | nil => simp [insertCmp]
  | cons y ys ih =>
    by_cases hc : cmp y x = .lt
    · simp only [insertCmp, if_pos hc, List.mem_cons, ih]
      tauto
    · simp [insertCmp, hc]

theorem mem_sortByCmp {cmp : String → String → Ordering} {v : String} :
    ∀ {l : List String}, v ∈ sortByCmp cmp l ↔ v ∈ l := by
  intro l
  induction l with
  | nil => exact Iff.rfl
  | cons x xs ih => simp [sortByCmp, mem_insertCmp, ih]

theorem contains_cons {x v : String} {seen : List String} :
    (x :: seen).contains v = (v == x || seen.contains v) := by
  cases hvx : v == x <;> simp [List.contains, List.elem, hvx]

theorem mem_dedupAux {v : String} :
    ∀ (l seen : List String), v ∈ dedupAux seen l ↔ (v ∈ l ∧ seen.contains v = false) := by
  intro l
  induction l with
  | nil => simp [dedupAux]
  | cons x xs ih =>
    intro seen
    cases hx : seen.contains x
    · simp only [dedupAux, hx, Bool.false_eq_true, if_false, List.mem_cons]
      constructor
      · intro h
        rcases h with rfl | h
        · exact ⟨Or.inl rfl, hx⟩
        · rcases (ih (x :: seen)).mp h with ⟨h1, h2⟩
          rw [contains_cons] at h2
          rcases Bool.or_eq_false_iff.mp h2 with ⟨_, h4⟩
          exact ⟨Or.inr h1, h4⟩
      · rintro ⟨rfl | h1, h2⟩
        · exact Or.inl rfl
        · by_cases hvx : v = x
          · exact Or.inl hvx
          · refine Or.inr ((ih (x :: seen)).mpr ⟨h1, ?_⟩)
            rw [contains_cons]
            have hb : (v == x) = false := by simpa using hvx
            exact Bool.or_eq_false_iff.mpr ⟨hb, h2⟩
    · simp only [dedupAux, hx, if_true, ih seen, List.mem_cons]
      constructor
      · rintro ⟨h1, h2⟩
        exact ⟨Or.inr h1, h2⟩
      · rintro ⟨rfl | h1, h2⟩
        · rw [hx] at h2
          cases h2
        · exact ⟨h1, h2⟩

theorem mem_dedupFirst {v : String} {l : List String} : v ∈ dedupFirst l ↔ v ∈ l := by
  rw [dedupFirst, mem_dedupAux]
  simp [List.contains]

theorem nodup_dedupAux : ∀ (l seen : List String), (dedupAux seen l).Nodup := by
  intro l
  induction l with
  | nil => intro seen; simp [dedupAux]
  | cons x xs ih =>
    intro seen
    cases hx : seen.contains x
    · simp only [dedupAux, hx, Bool.false_eq_true, if_false]
      refine List.nodup_cons.mpr ⟨?_, ih (x :: seen)⟩
      intro hmem
      rcases (mem_dedupAux xs (x :: seen)).mp hmem with ⟨_, h2⟩
      rw [contains_cons] at h2
      simp at h2
    · simp only [dedupAux, hx, if_true]
      exact ih seen

theorem head?_mem {l : List String} {v : String} (h : l.head? = some v) : v ∈ l := by
  cases l with
  | nil => simp at h
  | cons x xs =>
    have : x = v := by simpa using h
    subst this
    exact List.mem_cons_self _ _

theorem pickMax_eq {init : Option (String × SemVer)} {w v : String} {pw pv : SemVer}
    (h : pickMax init w pw = some (v, pv)) : v = w ∨ init = some (v, pv) := by
  match init with
  | none =>
    simp only [pickMax] at h
    injection h with h1
    exact Or.inl (congrArg Prod.fst h1).symm
  | some (b, pb) =>
    simp only [pickMax] at h
    by_cases hc : compareSemVer pb pw = .lt
    · rw [if_pos hc] at h
      injection h with h1
      exact Or.inl (congrArg Prod.fst h1).symm
    · rw [if_neg hc] at h
      exact Or.inr h

theorem pickFold_mem {r : Range} :
    ∀ (l : List String) (init : Option (String × SemVer)) {v : String} {pv : SemVer},
      (l.foldl
        (fun best w =>
          match parseSemVer w with
          | none => best
          | some pw => if rangeTest pw r then pickMax best w pw else best)
        init) = some (v, pv) →
      v ∈ l ∨ init = some (v, pv) := by
  intro l
  induction l with
  | nil =>
    intro init v pv h
    exact Or.inr h
  | cons w ws ih =>
    intro init v pv h
    rw [List.foldl_cons] at h
    cases hp : parseSemVer w with
    | none =>
      simp only [hp] at h
      rcases ih _ h with h1 | h2
      · exact Or.inl (List.mem_cons_of_mem _ h1)
      · exact Or.inr h2
    | some pw =>
      simp only [hp] at h
      by_cases ht : rangeTest pw r = true
      · rw [if_pos ht] at h
        rcases ih _ h with h1 | h2
        · exact Or.inl (List.mem_cons_of_mem _ h1)
        · rcases pickMax_eq h2 with rfl | h3
          · exact Or.inl (List.mem_cons_self _ _)
          · exact Or.inr h3
      · rw [if_neg ht] at h
        rcases ih _ h with h1 | h2
        · exact Or.inl (List.mem_cons_of_mem _ h1)
        · exact Or.inr h2

theorem maxSatisfying_mem {l : List String} {range v : String}
    (h : maxSatisfying l range = some v) : v ∈ l := by
  rw [maxSatisfying] at h
  revert h
  match hr : parseRange range with
  | none => intro h; cases h
  | some r =>
    intro h
    rcases Option.map_eq_some'.mp h with ⟨⟨v', pv⟩, hfold, hfst⟩
    rcases pickFold_mem l none hfold with h1 | h2
    · cases hfst
      exact h1
    · cases h2

theorem maxSatisfying_nil {range : String} : maxSatisfying [] range = none := by
  rw [maxSatisfying]
  cases parseRange range <;> rfl

theorem validRelease_empty : validRelease "" = false := by decide

theorem filter_false_of_all {p : String → Bool} :
    ∀ {l : List String}, (∀ v ∈ l, p v = false) → l.filter p = [] := by
  intro l
  induction l with
  | nil => intro _; rfl
  | cons x xs ih =>
    intro h
    have hx := h x (List.mem_cons_self _ _)
    simp only [List.filter, hx]
    exact ih fun v hv => h v (List.mem_cons_of_mem _ hv)

theorem lookup_set_self {α : Type} (st : CacheState α) (key : String) (e : CacheEntry α) :
    (setEntry st key e).lookup key = some e := by
  simp [setEntry, List.lookup]

theorem lookupLive_set_self {α : Type} (st : CacheState α) (key : String) (e : CacheEntry α)
    (now : Nat) (h : now < e.expiresAt) : lookupLive (setEntry st key e) key now = some e := by
  simp only [lookupLive, lookup_set_self]
  rw [if_pos h]

theorem contains_false_iff {l : List String} {a : String} : l.contains a = false ↔ a ∉ l := by
  constructor
  · intro h hm
    rw [contains_true_iff.mpr hm] at h
    cases h
  · intro h
    cases hc : l.contains a
    · rfl
    · exact absurd (contains_true_iff.mp hc) h

theorem candidates_head_ne_empty {doc : MetadataDoc} {v : String}
    (h : (resolutionCandidates doc).head? = some v) : (v == "") = false := by
  have hm : v ∈ resolutionCandidates doc := head?_mem h
  rw [resolutionCandidates, mem_sortByCmp] at hm
  rcases List.mem_filter.mp hm with ⟨_, hval⟩
  cases hb : v == "" with
  | false => rfl
  | true =>
    have hv : v = "" := by simpa using hb
    rw [hv, validRelease_empty] at hval
    cases hval

/-! ## Claim theorems -/

/-- C1, counterexample: on the specification's own example document the
specifier `"^1.0.0"` resolves to `"1.9.9"` — `1.9.9` is a non-pre-release
candidate satisfying the range — and not to null as the claim states. -/
theorem c1_caret_example_counterexample :
    getResolvedVersion exampleDoc "^1.0.0" = some "1.9.9" ∧
    getResolvedVersion exampleDoc "^1.0.0" ≠ none := by
  exact ⟨by decide, by decide⟩

/-- C1, amended: version resolution follows the four-step order — exact match
first, then the tag mapping, then the head of the candidate list for
`"latest"`/empty, then `maxSatisfying` over the candidates — where the
candidate list excludes versions that are pre-releases or fail to parse as
semver; on the example document, `""` and `"latest"` give `"2.0.0"`,
`"^1.0.0"` gives `"1.9.9"`, and `"1.9.9"` gives `"1.9.9"`. -/
theorem c1_resolution_order :
    (∀ (doc : MetadataDoc) (spec : String),
      (doc.versions.contains spec = true → getResolvedVersion doc spec = some spec) ∧
      (∀ t, doc.versions.contains spec = false → doc.tags.lookup spec = some t →
        getResolvedVersion doc spec = some t) ∧
      (doc.versions.contains spec = false → doc.tags.lookup spec = none →
        (spec = "latest" ∨ spec = "") →
        getResolvedVersion doc spec = (resolutionCandidates doc).head?) ∧
      (doc.versions.contains spec = false → doc.tags.lookup spec = none →
        (spec == "latest" || spec == "") = false →
        getResolvedVersion doc spec = maxSatisfying (resolutionCandidates doc) spec)) ∧
    getResolvedVersion exampleDoc "" = some "2.0.0" ∧
    getResolvedVersion exampleDoc "latest" = some "2.0.0" ∧
    getResolvedVersion exampleDoc "^1.0.0" = some "1.9.9" ∧
    getResolvedVersion exampleDoc "1.9.9" = some "1.9.9" := by
  refine ⟨fun doc spec => ⟨?_, ?_, ?_, ?_⟩, by decide, by decide, by decide, by decide⟩
  · intro h
    have hm := contains_true_iff.mp h
    simp [getResolvedVersion, hm]
  · intro t h1 h2
    have hn := contains_false_iff.mp h1
    simp [getResolvedVersion, hn, h2]
  · intro h1 h2 h3
    have hn := contains_false_iff.mp h1
    cases hh : (resolutionCandidates doc).head? with
    | none =>
      rw [resolutionCandidates] at hh
      simp [getResolvedVersion, hn, h2, h3, hh]
    | some v =>
      have hne : ¬v = "" := by
        simpa using candidates_head_ne_empty hh
      rw [resolutionCandidates] at hh
      simp [getResolvedVersion, hn, h2, h3, hh, hne]
  · intro h1 h2 h3
    have hn := contains_false_iff.mp h1
    have h3' : ¬spec = "latest" ∧ ¬spec = "" := by simpa using h3
    simp [getResolvedVersion, hn, h2, h3'.1, h3'.2, resolutionCandidates]

/-- C1, witness: the amended resolution-order theorem applied to the example
document, discharging each hypothesis at concrete inputs. -/
theorem c1_resolution_order_witness :
    getResolvedVersion exampleDoc "1.9.9" = some "1.9.9" ∧
    getResolvedVersion exampleDoc "latest" = some "2.0.0" ∧
    getResolvedVersion exampleDoc "^1.0.0"
      = maxSatisfying (resolutionCandidates exampleDoc) "^1.0.0" :=
  ⟨(c1_resolution_order.1 exampleDoc "1.9.9").1 (by decide),
   (c1_resolution_order.1 exampleDoc "latest").2.1 "2.0.0" (by decide) (by decide),
   (c1_resolution_order.1 exampleDoc "^1.0.0").2.2.2 (by decide) (by decide) (by decide)⟩

/-- C7: version resolution is total — for every document and specifier it
yields null or a version string, and any returned string comes from the
document's versions list or its tag mapping; it has no failure outcome. -/
theorem c7_resolution_total (doc : MetadataDoc) (spec : String) :
    getResolvedVersion doc spec = none ∨
      ∃ v, getResolvedVersion doc spec = some v ∧
        (v ∈ doc.versions ∨ ∃ t, (t, v) ∈ doc.tags) := by
  by_cases hc : spec ∈ doc.versions
  · right
    exact ⟨spec, by simp [getResolvedVersion, hc], Or.inl hc⟩
  · cases hl : doc.tags.lookup spec with
    | some t =>
      right
      exact ⟨t, by simp [getResolvedVersion, hc, hl], Or.inr ⟨spec, lookup_mem hl⟩⟩
    | none =>
      by_cases hb : spec = "latest" ∨ spec = ""
      · cases hh : (sortByCmp rcompareOrd (doc.versions.filter validRelease)).head? with
        | none =>
          left
          simp [getResolvedVersion, hc, hl, hb, hh]
        | some v =>
          have hne : ¬v = "" := by
            simpa using @candidates_head_ne_empty doc v hh
          right
          refine ⟨v, by simp [getResolvedVersion, hc, hl, hb, hh, hne], Or.inl ?_⟩
          have hm : v ∈ sortByCmp rcompareOrd (doc.versions.filter validRelease) := head?_mem hh
          rw [mem_sortByCmp] at hm
          exact (List.mem_filter.mp hm).1
      · cases hm : maxSatisfying (sortByCmp rcompareOrd (doc.versions.filter validRelease)) spec with
        | none =>
          left
          simp [getResolvedVersion, hc, hl, hb, hm]
        | some v =>
          right
          refine ⟨v, by simp [getResolvedVersion, hc, hl, hb, hm], Or.inl ?_⟩
          have hmem := maxSatisfying_mem hm
          rw [mem_sortByCmp] at hmem
          exact (List.mem_filter.mp hmem).1

/-- C7, witness: totality at a specifier that is not a valid range. -/
theorem c7_resolution_total_witness :
    getResolvedVersion exampleDoc "not a range" = none ∨
      ∃ v, getResolvedVersion exampleDoc "not a range" = some v ∧
        (v ∈ exampleDoc.versions ∨ ∃ t, (t, v) ∈ exampleDoc.tags) :=
  c7_resolution_total exampleDoc "not a range"

/-- C9: when no version of the document parses as semver, the candidate set
is empty, so `"latest"`, the empty specifier and every range specifier
resolve to null, while an exact match still returns the non-semver string. -/
theorem c9_invalid_versions_resolution (doc : MetadataDoc)
    (hall : ∀ v ∈ doc.versions, parseSemVer v = none) (_hne : doc.versions ≠ []) :
    (∀ spec, doc.versions.contains spec = false → doc.tags.lookup spec = none →
      getResolvedVersion doc spec = none) ∧
    (∀ v, doc.versions.contains v = true → getResolvedVersion doc v = some v) := by
  have hfilter : doc.versions.filter validRelease = [] :=
    filter_false_of_all fun v hv => by simp [validRelease, hall v hv]
  constructor
  · intro spec h1 h2
    have hn := contains_false_iff.mp h1
    by_cases hb : spec = "latest" ∨ spec = ""
    · simp [getResolvedVersion, hn, h2, hb, hfilter, sortByCmp]
    · simp [getResolvedVersion, hn, h2, hb, hfilter, sortByCmp, maxSatisfying_nil]
  · intro v h
    have hm := contains_true_iff.mp h
    simp [getResolvedVersion, hm]

/-- C9, witness: a document whose versions are the non-semver strings
`"foo"` and `"bar"`. -/
theorem c9_invalid_versions_resolution_witness :
    getResolvedVersion ⟨[], ["foo", "bar"]⟩ "latest" = none ∧
    getResolvedVersion ⟨[], ["foo", "bar"]⟩ "^1.0.0" = none ∧
    getResolvedVersion ⟨[], ["foo", "bar"]⟩ "foo" = some "foo" :=
  ⟨(c9_invalid_versions_resolution ⟨[], ["foo", "bar"]⟩ (by decide) (by decide)).1
      "latest" (by decide) (by decide),
   (c9_invalid_versions_resolution ⟨[], ["foo", "bar"]⟩ (by decide) (by decide)).1
      "^1.0.0" (by decide) (by decide),
   (c9_invalid_versions_resolution ⟨[], ["foo", "bar"]⟩ (by decide) (by decide)).2
      "foo" (by decide)⟩

theorem mem_fetchGitHubVersions {v : String} {names : List String} :
    v ∈ fetchGitHubVersions names ↔ (¬v = "" ∧ v ∈ names.map stripV) := by
  rw [fetchGitHubVersions, mem_dedupFirst, mem_sortByCmp]
  simp only [List.mem_filter, Bool.not_eq_true', beq_eq_false_iff_ne, ne_eq]
  tauto

/-- C6, counterexample: a tag named exactly `"v"` is dropped by the loader
(the name becomes falsy after stripping), while the claim read literally —
strip, deduplicate, sort, with no removal — would keep it as an empty entry. -/
theorem c6_empty_name_counterexample :
    fetchGitHubVersions ["v"] = [] ∧
    ghVersionsClaimed ["v"] = [""] ∧
    fetchGitHubVersions ["v"] ≠ ghVersionsClaimed ["v"] :=
  ⟨by decide, by decide, by decide⟩

/-- C6, amended: for every fetched tag list the returned document has an empty
tags mapping and versions equal to the tag names with one leading `v`
stripped, names that became empty dropped, deduplicated (no duplicate
survives) and ordered by the version comparator; on the raw tags
`["v1.2.0","1.1.0","v1.2.0"]` the result is `["1.2.0","1.1.0"]`. -/
theorem c6_gh_normalization :
    (∀ names : List String, (fetchGitHubMetadata names).tags = []) ∧
    (∀ (names : List String) (v : String),
      v ∈ (fetchGitHubMetadata names).versions ↔ (¬v = "" ∧ v ∈ names.map stripV)) ∧
    (∀ names : List String, (fetchGitHubMetadata names).versions.Nodup) ∧
    fetchGitHubVersions ["v1.2.0", "1.1.0", "v1.2.0"] = ["1.2.0", "1.1.0"] :=
  ⟨fun _ => rfl, fun _ _ => mem_fetchGitHubVersions, fun _ => nodup_dedupAux _ _, by decide⟩

/-- C6, witness: the amended normalization theorem at a concrete tag list. -/
theorem c6_gh_normalization_witness :
    (fetchGitHubMetadata ["v1.2.0"]).tags = [] ∧
    "1.2.0" ∈ fetchGitHubVersions ["v1.2.0"] :=
  ⟨c6_gh_normalization.1 ["v1.2.0"],
   (c6_gh_normalization.2.1 ["v1.2.0"] "1.2.0").mpr (by decide)⟩

/-- C10: normalization strips exactly one leading `v` per tag name — `"vv2.0"`
becomes `"v2.0"`, a name not starting with `v` is unchanged — and a name that
became empty (the tag `"v"`) is removed rather than kept as an empty entry. -/
theorem c10_strip_exactly_one_v :
    (∀ l : List Char, stripVL ('v' :: l) = l) ∧
    (∀ (c : Char) (l : List Char), ¬c = 'v' → stripVL (c :: l) = c :: l) ∧
    stripV "vv2.0" = "v2.0" ∧
    fetchGitHubVersions ["vv2.0"] = ["v2.0"] ∧
    fetchGitHubVersions ["v"] = [] ∧
    (∀ names : List String, (fetchGitHubVersions names).contains "" = false) := by
  refine ⟨fun _ => rfl, ?_, by decide, by decide, by decide, ?_⟩
  · intro c l hc
    unfold stripVL
    split
    · next heq =>
      injection heq with h1 _
      exact absurd h1 hc
    · rfl
  · intro names
    rw [contains_false_iff]
    intro hmem
    rcases mem_fetchGitHubVersions.mp hmem with ⟨hne, _⟩
    exact hne rfl

/-- C10, witness: the strip theorem applied to concrete names, discharging
the non-`v` hypothesis. -/
theorem c10_strip_exactly_one_v_witness :
    stripVL ('x' :: ['1']) = 'x' :: ['1'] ∧
    (fetchGitHubVersions ["a", ""]).contains "" = false :=
  ⟨c10_strip_exactly_one_v.2.1 'x' ['1'] (by decide),
   c10_strip_exactly_one_v.2.2.2.2.2 ["a", ""]⟩

/-- C3: on a cache miss the GitHub loader caches a negative entry for
`maxAge * 2` on a 404 and on a 403 carrying the block flag, then rethrows; a
403 without the block flag only logs, leaves the cache unchanged and
rethrows, so any later call that still misses invokes its loader again. -/
theorem c3_github_error_caching (st : CacheState GhVal) (now : Nat) (user repo : String)
    (maxAge : Nat) (hmiss : lookupLive st ("gh/" ++ user ++ "/" ++ repo) now = none) :
    (∀ block, fetchGitHubCached st now user repo maxAge (.err 404 block)
      = ({ result := .error (.thrown 404 block)
           state := setEntry st ("gh/" ++ user ++ "/" ++ repo)
             ⟨true, .negative 404, now + maxAge * 2⟩
           invoked := true }, false)) ∧
    (fetchGitHubCached st now user repo maxAge (.err 403 true)
      = ({ result := .error (.thrown 403 true)
           state := setEntry st ("gh/" ++ user ++ "/" ++ repo)
             ⟨true, .negative 403, now + maxAge * 2⟩
           invoked := true }, false)) ∧
    (fetchGitHubCached st now user repo maxAge (.err 403 false)
      = ({ result := .error (.thrown 403 false), state := st, invoked := true }, true)) ∧
    (∀ (now2 : Nat) (run2 : LoaderRun GhVal),
      lookupLive st ("gh/" ++ user ++ "/" ++ repo) now2 = none →
      (cacheGet st now2 ("gh/" ++ user ++ "/" ++ repo) run2 maxAge).invoked = true) := by
  refine ⟨?_, ?_, ?_, ?_⟩
  · intro block
    simp [fetchGitHubCached, ghLoader, cacheGet, hmiss]
  · simp [fetchGitHubCached, ghLoader, cacheGet, hmiss]
  · simp [fetchGitHubCached, ghLoader, cacheGet, hmiss]
  · intro now2 run2 hmiss2
    obtain ⟨ov, out⟩ := run2
    cases ov with
    | none => cases out <;> simp [cacheGet, hmiss2]
    | some p =>
      obtain ⟨v, ttl⟩ := p
      simp [cacheGet, hmiss2]

/-- C3, witness: the three failure branches on an empty cache. -/
theorem c3_github_error_caching_witness :
    fetchGitHubCached [] 0 "u" "r" 100 (.err 404 false)
      = ({ result := .error (.thrown 404 false)
           state := [("gh/u/r", ⟨true, .negative 404, 200⟩)]
           invoked := true }, false) ∧
    fetchGitHubCached [] 0 "u" "r" 100 (.err 403 true)
      = ({ result := .error (.thrown 403 true)
           state := [("gh/u/r", ⟨true, .negative 403, 200⟩)]
           invoked := true }, false) ∧
    fetchGitHubCached [] 0 "u" "r" 100 (.err 403 false)
      = ({ result := .error (.thrown 403 false), state := [], invoked := true }, true) :=
  ⟨(c3_github_error_caching [] 0 "u" "r" 100 rfl).1 false,
   (c3_github_error_caching [] 0 "u" "r" 100 rfl).2.1,
   (c3_github_error_caching [] 0 "u" "r" 100 rfl).2.2.1⟩

/-- C5: on a cache miss a 404 from the registry stores a negative entry under
the default `maxAge` via the cache override before the error propagates, and
any lookup before that entry expires fails immediately with the stored
negative result without invoking the loader. -/
theorem c5_npm_negative_caching (st : CacheState NpmVal) (now : Nat) (name : String)
    (maxAge : Nat) (hmiss : lookupLive st ("npm/" ++ name) now = none) :
    fetchNpmCached st now name maxAge (.err (some 404))
      = { result := .error (.httpError (some 404))
          state := setEntry st ("npm/" ++ name) ⟨true, .negative 404, now + maxAge⟩
          invoked := true } ∧
    (∀ (now2 : Nat) (o2 : NpmFetchOutcome), now2 < now + maxAge →
      fetchNpmCached (setEntry st ("npm/" ++ name) ⟨true, .negative 404, now + maxAge⟩)
          now2 name maxAge o2
        = { result := .error (.negative 404)
            state := setEntry st ("npm/" ++ name) ⟨true, .negative 404, now + maxAge⟩
            invoked := false }) := by
  constructor
  · simp [fetchNpmCached, npmLoader, cacheGet, hmiss]
  · intro now2 o2 hlt
    have hlive := lookupLive_set_self st ("npm/" ++ name)
      ⟨true, .negative 404, now + maxAge⟩ now2 hlt
    simp [fetchNpmCached, cacheGet, hlive]

/-- C5, witness: a 404 for a package on an empty cache, then a hit before
expiry that fails without invoking the loader. -/
theorem c5_npm_negative_caching_witness :
    fetchNpmCached [] 0 "left-pad" 100 (.err (some 404))
      = { result := .error (.httpError (some 404))
          state := [("npm/left-pad", ⟨true, .negative 404, 100⟩)]
          invoked := true } ∧
    fetchNpmCached [("npm/left-pad", ⟨true, .negative 404, 100⟩)] 50 "left-pad" 100
        (.ok none)
      = { result := .error (.negative 404)
          state := [("npm/left-pad", ⟨true, .negative 404, 100⟩)]
          invoked := false } :=
  ⟨(c5_npm_negative_caching [] 0 "left-pad" 100 rfl).1,
   (c5_npm_negative_caching [] 0 "left-pad" 100 rfl).2 50 (.ok none) (by decide)⟩

/-- C8: on a cache miss a successful registry response without a versions
collection (or without a body) raises the validation failure and stores
nothing; otherwise the document is built with the `dist-tags` mapping
verbatim and the version keys sorted by the descending semver comparator. -/
theorem c8_npm_response_handling (st : CacheState NpmVal) (now : Nat) (name : String)
    (maxAge : Nat) (hmiss : lookupLive st ("npm/" ++ name) now = none) :
    (fetchNpmCached st now name maxAge (.ok none)
      = { result := .error (.validationError name), state := st, invoked := true }) ∧
    (∀ tags, fetchNpmCached st now name maxAge (.ok (some ⟨none, tags⟩))
      = { result := .error (.validationError name), state := st, invoked := true }) ∧
    (∀ ks tags, (fetchNpmCached st now name maxAge (.ok (some ⟨some ks, tags⟩))).result
      = .ok (.doc { tags := tags, versions := sortByCmp rcompareOrd ks })) := by
  refine ⟨?_, ?_, ?_⟩
  · simp [fetchNpmCached, npmLoader, cacheGet, hmiss]
  · intro tags
    simp [fetchNpmCached, npmLoader, cacheGet, hmiss]
  · intro ks tags
    simp [fetchNpmCached, npmLoader, cacheGet, hmiss]

/-- C8, witness: a validation failure and a successful document build on an
empty cache. -/
theorem c8_npm_response_handling_witness :
    fetchNpmCached [] 0 "pkg" 100 (.ok (some ⟨none, [("latest", "2.0.0")]⟩))
      = { result := .error (.validationError "pkg"), state := [], invoked := true } ∧
    (fetchNpmCached [] 0 "pkg" 100
        (.ok (some ⟨some ["1.0.0", "2.0.0"], [("latest", "2.0.0")]⟩))).result
      = .ok (.doc { tags := [("latest", "2.0.0")], versions := ["2.0.0", "1.0.0"] }) :=
  ⟨(c8_npm_response_handling [] 0 "pkg" 100 rfl).2.1 [("latest", "2.0.0")],
   (c8_npm_response_handling [] 0 "pkg" 100 rfl).2.2 ["1.0.0", "2.0.0"] [("latest", "2.0.0")]⟩

theorem fetchFilesGo_congr (attempt attempt2 : Nat → FilesFetchOutcome) :
    ∀ (r i : Nat), (∀ j, i ≤ j → j ≤ i + r → attempt j = attempt2 j) →
      fetchFilesGo attempt i r = fetchFilesGo attempt2 i r := by
  intro r
  induction r with
  | zero =>
    intro i h
    have h0 := h i (by omega) (by omega)
    simp [fetchFilesGo, h0]
  | succ n ih =>
    intro i h
    have h0 := h i (by omega) (by omega)
    simp only [fetchFilesGo, h0]
    cases filesAttemptStep (attempt2 i) with
    | done r => rfl
    | retry => exact ih (i + 1) fun j hj1 hj2 => h j (by omega) (by omega)

/-- C4, counterexample: an HTTP error response with a status other than 403
(here a 404) is thrown to the caller as an error, not surfaced as the
structured `{status, message}` value the claim describes for HTTP errors. -/
theorem c4_http_error_counterexample :
    fetchFiles (fun _ => .httpErr 404 "Not found") = .error (.http 404 "Not found") ∧
    fetchFiles (fun _ => .httpErr 404 "Not found") ≠ .ok (.negative 404 "Not found") :=
  ⟨rfl, by decide⟩

/-- C4, amended: `fetchFiles` uses a 30-second per-attempt timeout and at most
2 retries (3 attempts, later attempts never being consulted); only transient
parse failures are retried; a 403 response becomes the structured
`{status, message}` value; any other HTTP error status, a timeout or another
request error propagates immediately as an error. -/
theorem c4_fetch_retry_classification :
    fetchRetries = 2 ∧ fetchTimeoutMs = 30000 ∧
    (∀ (attempt : Nat → FilesFetchOutcome) (d f : Option String),
      attempt 0 = .parseErr → attempt 1 = .parseErr → attempt 2 = .ok d f →
      fetchFiles attempt = .ok (.payload d f)) ∧
    (∀ attempt : Nat → FilesFetchOutcome,
      attempt 0 = .parseErr → attempt 1 = .parseErr → attempt 2 = .parseErr →
      fetchFiles attempt = .error .parse) ∧
    (∀ (attempt : Nat → FilesFetchOutcome) (b : String),
      attempt 0 = .httpErr 403 b → fetchFiles attempt = .ok (.negative 403 b)) ∧
    (∀ (attempt : Nat → FilesFetchOutcome) (s : Nat) (b : String),
      attempt 0 = .httpErr s b → ¬s = 403 → fetchFiles attempt = .error (.http s b)) ∧
    (∀ attempt : Nat → FilesFetchOutcome,
      attempt 0 = .timeoutErr → fetchFiles attempt = .error .timeout) ∧
    (∀ attempt attempt2 : Nat → FilesFetchOutcome,
      (∀ i, i ≤ 2 → attempt i = attempt2 i) →
      fetchFiles attempt = fetchFiles attempt2) := by
  refine ⟨rfl, rfl, ?_, ?_, ?_, ?_, ?_, ?_⟩
  · intro attempt d f h0 h1 h2
    simp [fetchFiles, fetchRetries, fetchFilesGo, filesAttemptStep, h0, h1, h2]
  · intro attempt h0 h1 h2
    simp [fetchFiles, fetchRetries, fetchFilesGo, filesAttemptStep, h0, h1, h2]
  · intro attempt b h0
    simp [fetchFiles, fetchRetries, fetchFilesGo, filesAttemptStep, h0]
  · intro attempt s b h0 hs
    have hs' : (s == 403) = false := by simpa using hs
    simp [fetchFiles, fetchRetries, fetchFilesGo, filesAttemptStep, h0, hs']
  · intro attempt h0
    simp [fetchFiles, fetchRetries, fetchFilesGo, filesAttemptStep, h0]
  · intro attempt attempt2 h
    exact fetchFilesGo_congr attempt attempt2 2 0 fun j hj1 hj2 => h j (by omega)

/-- C4, witness: the amended retry-classification theorem at concrete attempt
sequences. -/
theorem c4_fetch_retry_classification_witness :
    fetchFiles (fun i => if i ≤ 1 then .parseErr else .ok none (some "f")) =
      .ok (.payload none (some "f")) ∧
    fetchFiles (fun _ => .parseErr) = .error .parse ∧
    fetchFiles (fun _ => .httpErr 403 "denied") = .ok (.negative 403 "denied") ∧
    fetchFiles (fun _ => .httpErr 500 "boom") = .error (.http 500 "boom") ∧
    fetchFiles (fun _ => .timeoutErr) = .error .timeout :=
  ⟨c4_fetch_retry_classification.2.2.1 _ none (some "f") rfl rfl rfl,
   c4_fetch_retry_classification.2.2.2.1 _ rfl rfl rfl,
   c4_fetch_retry_classification.2.2.2.2.1 _ "denied" rfl,
   c4_fetch_retry_classification.2.2.2.2.2.1 _ 500 "boom" rfl (by decide),
   c4_fetch_retry_classification.2.2.2.2.2.2.1 _ rfl⟩

end JsDelivr
